import Mathlib

/-!
# Verification of the `use-timeline` timeline engine

Shallow embedding of the undo/redo timeline engine from `src/index.ts` and
`src/utils.ts` of the `use-timeline` repository.  The engine is a pure state
machine over `UndoableState<T> = { timeline: T[], index: number }`.

Conventions of the embedding:
* JavaScript `number` indices are modelled as `Int` (they may be negative);
  `timeline` is a `List`.
* `Array.prototype.slice` is modelled by `jsSlice`, including clamping and
  negative-argument wrap-around.
* Out-of-range element access `timeline[index]` yields `undefined` in
  JavaScript; for the generic engine it is modelled via an `Inhabited`
  default (`_getCurrentTimeSlice`), which is only reached on states that
  violate the documented invariant.
* Arbitrary JavaScript runtime values (needed to model `_initState`, which
  can receive a function) are modelled by the inductive `JSVal`.
* All Lean functions are total, which models the documented property that no
  engine operation throws.
-/

/-- The engine's state: the ordered snapshots plus a cursor index.
From `UndoableState<T>` in `src/index.ts`. -/
structure UndoableState (T : Type) where
  timeline : List T
  index : Int

/-- An element of the derived past/future views: a snapshot paired with its
absolute position.  From `TimeSlice<T>` in `src/index.ts`. -/
structure TimeSlice (T : Type) where
  timeSlice : T
  index : Int

/-- JavaScript `Array.prototype.slice(start, stop)`: negative arguments count
from the end, both bounds are clamped to `[0, length]`. -/
def jsSlice {T : Type} (l : List T) (start stop : Int) : List T :=
  let len : Int := l.length
  let s := if start < 0 then max (len + start) 0 else min start len
  let e := if stop < 0 then max (len + stop) 0 else min stop len
  (l.take e.toNat).drop s.toNat

/-- A model of JavaScript runtime values, sufficient for the seed argument of
`_initState` (`SetStateArg<T> = undefined | T | ((state: T) => T)`): a value
is either `undefined`, a plain (numeric) value, a string, or a zero-argument
function. -/
inductive JSVal where
  | undef
  | num (n : Int)
  | str (s : String)
  | func (f : Unit → JSVal)

instance : Inhabited JSVal := ⟨JSVal.undef⟩

/-- `isFunction` from `src/utils.ts`, after boolean coercion: the expression
`value && (toString-check || typeof-check || instanceof-check)` is truthy
exactly when `value` is a function (functions are always truthy, and each of
the three disjuncts holds exactly for functions). -/
def isFunction : JSVal → Bool
  | .func _ => true
  | _ => false

/-- Invoke a JavaScript value as a zero-argument function (the call
`(initialValue as Function)()` in `_initState`). -/
def callFn : JSVal → JSVal
  | .func f => f ()
  | v => v

/-- `_newState` from `src/index.ts`. -/
def _newState {T : Type} (timeline : List T) (index : Int) : UndoableState T :=
  ⟨timeline, index⟩

/-- `_canUndoTo` from `src/index.ts`: `index > 0 && to < index`. -/
def _canUndoTo {T : Type} (state : UndoableState T) (t : Int) : Bool :=
  decide (state.index > 0) && decide (t < state.index)

/-- `_canRedoTo` from `src/index.ts`: `to < timeline.length && to > index`. -/
def _canRedoTo {T : Type} (state : UndoableState T) (t : Int) : Bool :=
  decide (t < (state.timeline.length : Int)) && decide (t > state.index)

/-- `_getPast` from `src/index.ts`: `timeline.slice(0, index)` paired with the
relative index of each element (which is also its absolute index). -/
def _getPast {T : Type} (state : UndoableState T) : List (TimeSlice T) :=
  (jsSlice state.timeline 0 state.index).mapIdx
    (fun i timeSlice => ⟨timeSlice, (i : Int)⟩)

/-- `_getFuture` from `src/index.ts`: `timeline.slice(index + 1, length)`
paired with each element's absolute index `index + 1 + i`. -/
def _getFuture {T : Type} (state : UndoableState T) : List (TimeSlice T) :=
  (jsSlice state.timeline (state.index + 1) (state.timeline.length : Int)).mapIdx
    (fun i timeSlice => ⟨timeSlice, state.index + 1 + (i : Int)⟩)

/-- `_insert` from `src/index.ts`.  The TypeScript declaration has a default
parameter `maxTimelineSize = 5`; the default is applied at the call sites
that pass `undefined` (see `hookInsert`), so here the argument is explicit. -/
def _insert {T : Type} (state : UndoableState T) (timeSlice : T)
    (maxTimelineSize : Int) : UndoableState T :=
  let startIndex : Int := if state.index = maxTimelineSize then 1 else 0
  let past := jsSlice state.timeline startIndex (state.index + 1)
  let newTimeline := past ++ [timeSlice]
  let newIndex := if state.index = maxTimelineSize then state.index else state.index + 1
  _newState newTimeline newIndex

/-- `_undoTo` from `src/index.ts`. -/
def _undoTo {T : Type} (state : UndoableState T) (t : Int) : UndoableState T :=
  if _canUndoTo state t then _newState state.timeline t else state

/-- `_redoTo` from `src/index.ts`. -/
def _redoTo {T : Type} (state : UndoableState T) (t : Int) : UndoableState T :=
  if _canRedoTo state t then _newState state.timeline t else state

/-- `_jumpTo` from `src/index.ts`: no-op unless `0 <= to <= length - 1`. -/
def _jumpTo {T : Type} (state : UndoableState T) (t : Int) : UndoableState T :=
  if t < 0 ∨ t > (state.timeline.length : Int) - 1 then state
  else _newState state.timeline t

/-- `_getCurrentTimeSlice` from `src/index.ts`: `timeline[index]`.  An
out-of-range access yields `undefined` in JavaScript, modelled here by the
`Inhabited` default of `T`. -/
def _getCurrentTimeSlice {T : Type} [Inhabited T] (state : UndoableState T) : T :=
  if 0 ≤ state.index then state.timeline.getD state.index.toNat default
  else default

/-- `_clearTimeline` from `src/index.ts`: collapse to the single current
snapshot with cursor `0`. -/
def _clearTimeline {T : Type} [Inhabited T] (state : UndoableState T) : UndoableState T :=
  let currentTimeSlice := _getCurrentTimeSlice state
  _newState [currentTimeSlice] 0

/-- `_initState` from `src/index.ts`, preserving its control flow: the
initializer result is computed when `initialValue` is a function, but the
variable is then unconditionally reassigned to `initialValue` itself (there
is no `else`), so the stored seed is always `initialValue`. -/
def _initState (initialValue : JSVal) : UndoableState JSVal :=
  let _initialTimeSlice := if isFunction initialValue then callFn initialValue else JSVal.undef
  let _initialTimeSlice := initialValue
  _newState [_initialTimeSlice] 0

/-- The hook's `Options` object: the `maxTimelineSize` field may be absent
(outer `none`) or present with value `undefined` (inner `none`) or a number. -/
structure Options where
  maxTimelineSize : Option (Option Int)

/-- `defaultOptions` from `src/index.ts`: `{ maxTimelineSize: 20 }`. -/
def defaultOptions : Options :=
  ⟨some (some 20)⟩

/-- The object spread `{ ...base, ...override }` on `Options`: a field present
in `override` (even with value `undefined`) wins; an absent field falls back
to `base`. -/
def mergeOptions (base override : Options) : Options :=
  ⟨match override.maxTimelineSize with
    | none => base.maxTimelineSize
    | some v => some v⟩

/-- The state transition performed by the hook's `setState` with a direct
value: `useTimeline` computes `{ ...defaultOptions, ...options }` and calls
`_insert(s, timeSlice, maxTimelineSize)`; when the resolved field value is
`undefined`, `_insert`'s TypeScript default parameter `5` applies. -/
def hookInsert {T : Type} (s : UndoableState T) (v : T)
    (options : Option Options) : UndoableState T :=
  let merged := mergeOptions defaultOptions (options.getD ⟨none⟩)
  match merged.maxTimelineSize with
  | some (some m) => _insert s v m
  | _ => _insert s v 5

/-- The documented state invariant: the timeline is non-empty and the cursor
is in range. -/
def StateInv {T : Type} (s : UndoableState T) : Prop :=
  0 < s.timeline.length ∧ 0 ≤ s.index ∧ s.index < (s.timeline.length : Int)

instance {T : Type} (s : UndoableState T) : Decidable (StateInv s) :=
  inferInstanceAs
    (Decidable (0 < s.timeline.length ∧ 0 ≤ s.index ∧ s.index < (s.timeline.length : Int)))

/-- One engine operation together with its arguments, for quantifying over
sequences of operations. -/
inductive Op (T : Type) where
  | insert (v : T) (maxTimelineSize : Int)
  | undoTo (t : Int)
  | redoTo (t : Int)
  | jumpTo (t : Int)
  | clear

/-- Apply one operation to a state. -/
def step {T : Type} [Inhabited T] (s : UndoableState T) : Op T → UndoableState T
  | .insert v m => _insert s v m
  | .undoTo t => _undoTo s t
  | .redoTo t => _redoTo s t
  | .jumpTo t => _jumpTo s t
  | .clear => _clearTimeline s

/-- Apply a sequence of operations from left to right. -/
def run {T : Type} [Inhabited T] (s : UndoableState T) (ops : List (Op T)) :
    UndoableState T :=
  ops.foldl step s

/-- The argument restrictions of the amended invariant claim: `insert` is
called with a positive `maxTimelineSize` and `undoTo` with a non-negative
target; `redoTo`, `jumpTo` and `clear` are unrestricted. -/
def OpOk {T : Type} : Op T → Bool
  | .insert _ m => decide (0 < m)
  | .undoTo t => decide (0 ≤ t)
  | _ => true

@[simp] theorem newState_timeline {T : Type} (l : List T) (i : Int) :
    (_newState l i).timeline = l := rfl

@[simp] theorem newState_index {T : Type} (l : List T) (i : Int) :
    (_newState l i).index = i := rfl

theorem StateInv_def {T : Type} (s : UndoableState T) :
    StateInv s ↔
      (0 < s.timeline.length ∧ 0 ≤ s.index ∧ s.index < (s.timeline.length : Int)) :=
  Iff.rfl

theorem jsSlice_length_of_nonneg {T : Type} (l : List T) (a b : Int)
    (ha : 0 ≤ a) (hb : 0 ≤ b) :
    (jsSlice l a b).length
      = (min b (l.length : Int)).toNat - (min a (l.length : Int)).toNat := by
  simp only [jsSlice]
  rw [if_neg (by omega), if_neg (by omega)]
  simp only [List.length_drop, List.length_take]
  omega

theorem StateInv_insert {T : Type} {s : UndoableState T} (v : T) (m : Int)
    (hs : StateInv s) : StateInv (_insert s v m) := by
  obtain ⟨h1, h2, h3⟩ := hs
  unfold _insert
  by_cases hm : s.index = m
  · rw [if_pos hm, if_pos hm]
    have hp := jsSlice_length_of_nonneg s.timeline 1 (s.index + 1) (by omega) (by omega)
    rw [StateInv_def]
    simp only [newState_timeline, newState_index, List.length_append,
      List.length_cons, List.length_nil]
    omega
  · rw [if_neg hm, if_neg hm]
    have hp := jsSlice_length_of_nonneg s.timeline 0 (s.index + 1) (by omega) (by omega)
    rw [StateInv_def]
    simp only [newState_timeline, newState_index, List.length_append,
      List.length_cons, List.length_nil]
    omega

theorem StateInv_undoTo {T : Type} {s : UndoableState T} {t : Int}
    (hs : StateInv s) (ht : 0 ≤ t) : StateInv (_undoTo s t) := by
  obtain ⟨h1, h2, h3⟩ := hs
  unfold _undoTo
  by_cases h : _canUndoTo s t = true
  · rw [if_pos h]
    unfold _canUndoTo at h
    simp only [Bool.and_eq_true, decide_eq_true_eq] at h
    rw [StateInv_def]
    simp only [newState_timeline, newState_index]
    omega
  · rw [if_neg h]
    exact ⟨h1, h2, h3⟩

theorem StateInv_redoTo {T : Type} {s : UndoableState T} (t : Int)
    (hs : StateInv s) : StateInv (_redoTo s t) := by
  obtain ⟨h1, h2, h3⟩ := hs
  unfold _redoTo
  by_cases h : _canRedoTo s t = true
  · rw [if_pos h]
    unfold _canRedoTo at h
    simp only [Bool.and_eq_true, decide_eq_true_eq] at h
    rw [StateInv_def]
    simp only [newState_timeline, newState_index]
    omega
  · rw [if_neg h]
    exact ⟨h1, h2, h3⟩

theorem StateInv_jumpTo {T : Type} {s : UndoableState T} (t : Int)
    (hs : StateInv s) : StateInv (_jumpTo s t) := by
  obtain ⟨h1, h2, h3⟩ := hs
  unfold _jumpTo
  by_cases h : t < 0 ∨ t > (s.timeline.length : Int) - 1
  · rw [if_pos h]
    exact ⟨h1, h2, h3⟩
  · rw [if_neg h]
    rw [StateInv_def]
    simp only [newState_timeline, newState_index]
    omega

theorem StateInv_clearTimeline {T : Type} [Inhabited T] (s : UndoableState T) :
    StateInv (_clearTimeline s) := by
  unfold _clearTimeline
  rw [StateInv_def]
  simp only [newState_timeline, newState_index, List.length_cons, List.length_nil]
  omega

theorem StateInv_step {T : Type} [Inhabited T] {s : UndoableState T} {op : Op T}
    (hs : StateInv s) (hop : OpOk op = true) : StateInv (step s op) := by
  cases op with
  | insert v m => exact StateInv_insert v m hs
  | undoTo t =>
      exact StateInv_undoTo hs (by simpa [OpOk] using hop)
  | redoTo t => exact StateInv_redoTo t hs
  | jumpTo t => exact StateInv_jumpTo t hs
  | clear => exact StateInv_clearTimeline s

theorem StateInv_run {T : Type} [Inhabited T] {s : UndoableState T}
    {ops : List (Op T)} (hs : StateInv s) (hops : ∀ op ∈ ops, OpOk op = true) :
    StateInv (run s ops) := by
  induction ops generalizing s with
  | nil => exact hs
  | cons op rest ih =>
      exact ih (StateInv_step hs (hops op (List.mem_cons_self op rest)))
        (fun o ho => hops o (List.mem_cons_of_mem op ho))

theorem StateInv_initState (v : JSVal) : StateInv (_initState v) := by
  rw [StateInv_def]
  refine ⟨?_, ?_, ?_⟩ <;> simp [_initState]

/-- C1 (counterexample): the claim fails as stated.  Starting from
`initialize(0)`, one `insert` with positive `maxTimelineSize = 5` followed by
`undoTo(-1)` — a choice of target index the claim allows — produces a state
with `index = -1`, violating `0 <= index < length(timeline)`: `_canUndoTo`
never checks that the target is non-negative. -/
theorem C1_counterexample :
    ¬ StateInv (run (_initState (JSVal.num 0))
      [Op.insert (JSVal.num 1) 5, Op.undoTo (-1)]) := by
  decide

/-- C1 (amended): for every sequence of insert/undoTo/redoTo/jumpTo/clear
operations applied to a state produced by `initialize`, with any value and
positive `maxTimelineSize` for each insert, any target for redoTo and jumpTo,
and any *non-negative* target for undoTo, the resulting state satisfies:
timeline is non-empty and `0 <= index < length(timeline)`. -/
theorem C1_invariants_preserved (v : JSVal) (ops : List (Op JSVal))
    (hops : ∀ op ∈ ops, OpOk op = true) :
    StateInv (run (_initState v) ops) :=
  StateInv_run (StateInv_initState v) hops

/-- Witness for `C1_invariants_preserved` at a concrete operation sequence
exercising every operation. -/
theorem C1_invariants_preserved_witness :
    (∀ op ∈ [Op.insert (JSVal.num 1) 5, Op.undoTo 0, Op.redoTo 1,
        Op.jumpTo 0, Op.clear], OpOk op = true)
      ∧ StateInv (run (_initState (JSVal.num 0))
          [Op.insert (JSVal.num 1) 5, Op.undoTo 0, Op.redoTo 1,
            Op.jumpTo 0, Op.clear]) :=
  ⟨by decide, C1_invariants_preserved (JSVal.num 0)
    [Op.insert (JSVal.num 1) 5, Op.undoTo 0, Op.redoTo 1,
      Op.jumpTo 0, Op.clear] (by decide)⟩

/-- C2 (code bug): `initialize` given the zero-argument function
`() => 42` stores the function itself as the seed snapshot, not its result
`42`: `_initState` invokes the initializer but unconditionally overwrites the
variable with the raw argument before building the state. -/
theorem C2_initState_stores_function_itself :
    _initState (JSVal.func (fun _ => JSVal.num 42))
        = _newState [JSVal.func (fun _ => JSVal.num 42)] 0
      ∧ JSVal.func (fun _ => JSVal.num 42) ≠ JSVal.num 42 :=
  ⟨rfl, fun h => JSVal.noConfusion h⟩

/-- C3 (code bug): with `maxTimelineSize = 2`, the second insert after
`initialize(0)` already yields a timeline of length `3 > 2`: `_insert` evicts
only when `index` equals `maxTimelineSize`, so the timeline stabilises at
`maxTimelineSize + 1` entries, contradicting the documented cap (and the
code's own comment that the timeline "does not grow over maxTimelineSize"). -/
theorem C3_cap_exceeded :
    2 < (run (_initState (JSVal.num 0))
      [Op.insert (JSVal.num 1) 2, Op.insert (JSVal.num 2) 2]).timeline.length := by
  decide

/-- C4: when the caller supplies no options object (or an options object
without the `maxTimelineSize` field), the hook's insert path behaves exactly
as `_insert` with `maxTimelineSize = 20`, the documented default. -/
theorem C4_default_maxTimelineSize {T : Type} (s : UndoableState T) (v : T) :
    hookInsert s v none = _insert s v 20
      ∧ hookInsert s v (some ⟨none⟩) = _insert s v 20 :=
  ⟨rfl, rfl⟩

/-- C5: `undoTo` moves only the cursor, exactly when `index > 0` and the
target is below the cursor; in every other case it returns the input state
unchanged.  (The operation is a total function: it never throws.) -/
theorem C5_undoTo_spec {T : Type} (s : UndoableState T) (t : Int) :
    _undoTo s t = if 0 < s.index ∧ t < s.index then _newState s.timeline t else s := by
  by_cases h : 0 < s.index ∧ t < s.index
  · have hb : _canUndoTo s t = true := by
      unfold _canUndoTo
      simp only [Bool.and_eq_true, decide_eq_true_eq, gt_iff_lt]
      exact h
    unfold _undoTo
    rw [if_pos hb, if_pos h]
  · have hb : ¬ _canUndoTo s t = true := by
      unfold _canUndoTo
      simp only [Bool.and_eq_true, decide_eq_true_eq, gt_iff_lt]
      exact h
    unfold _undoTo
    rw [if_neg hb, if_neg h]

/-- C6: on an invariant-satisfying state, `jumpTo` is the identity at the
out-of-range targets `-1` and `length(timeline)`, and sets the cursor to `k`
exactly, for every in-range `k`, in either direction. -/
theorem C6_jumpTo_bounds {T : Type} (s : UndoableState T) (hs : StateInv s) :
    _jumpTo s (-1) = s
      ∧ _jumpTo s (s.timeline.length : Int) = s
      ∧ ∀ k : Int, 0 ≤ k → k < (s.timeline.length : Int) →
          _jumpTo s k = _newState s.timeline k := by
  obtain ⟨h1, h2, h3⟩ := hs
  refine ⟨?_, ?_, ?_⟩
  · unfold _jumpTo
    rw [if_pos (by omega)]
  · unfold _jumpTo
    rw [if_pos (by omega)]
  · intro k hk1 hk2
    unfold _jumpTo
    rw [if_neg (by omega)]

/-- Witness for `C6_jumpTo_bounds` on the concrete state `{[0, 1], 0}`. -/
theorem C6_jumpTo_bounds_witness :
    StateInv (⟨[(0 : Int), 1], 0⟩ : UndoableState Int)
      ∧ _jumpTo (⟨[(0 : Int), 1], 0⟩ : UndoableState Int) 1 = _newState [0, 1] 1 :=
  ⟨by decide,
    (C6_jumpTo_bounds ⟨[(0 : Int), 1], 0⟩ (by decide)).2.2 1 (by decide) (by decide)⟩

theorem insert_timeline_eq {T : Type} (s : UndoableState T) (v : T) (m : Int) :
    (_insert s v m).timeline
      = jsSlice s.timeline (if s.index = m then 1 else 0) (s.index + 1) ++ [v] := rfl

theorem insert_index_last {T : Type} {s : UndoableState T} (v : T) (m : Int)
    (hs : StateInv s) :
    (_insert s v m).index = ((_insert s v m).timeline.length : Int) - 1 := by
  obtain ⟨h1, h2, h3⟩ := hs
  unfold _insert
  by_cases hm : s.index = m
  · rw [if_pos hm, if_pos hm]
    have hp := jsSlice_length_of_nonneg s.timeline 1 (s.index + 1) (by omega) (by omega)
    simp only [newState_timeline, newState_index, List.length_append,
      List.length_cons, List.length_nil]
    omega
  · rw [if_neg hm, if_neg hm]
    have hp := jsSlice_length_of_nonneg s.timeline 0 (s.index + 1) (by omega) (by omega)
    simp only [newState_timeline, newState_index, List.length_append,
      List.length_cons, List.length_nil]
    omega

theorem getFuture_eq_nil_of_index_last {T : Type} {s : UndoableState T}
    (h0 : 0 ≤ s.index) (h : s.index = (s.timeline.length : Int) - 1) :
    _getFuture s = [] := by
  unfold _getFuture
  have hp := jsSlice_length_of_nonneg s.timeline (s.index + 1)
    (s.timeline.length : Int) (by omega) (by omega)
  have hnil : (jsSlice s.timeline (s.index + 1) (s.timeline.length : Int)).length = 0 := by
    omega
  rw [List.length_eq_zero] at hnil
  rw [hnil]
  rfl

/-- C7: inserting on an invariant-satisfying state (with positive
`maxTimelineSize`) leaves an empty future: the new cursor points at the last
timeline element, which is the inserted value, so all former redo entries are
discarded. -/
theorem C7_insert_erases_future {T : Type} (s : UndoableState T) (v : T)
    (m : Int) (hs : StateInv s) (_hm : 0 < m) :
    _getFuture (_insert s v m) = []
      ∧ (_insert s v m).index = ((_insert s v m).timeline.length : Int) - 1
      ∧ (_insert s v m).timeline.getLast? = some v := by
  have hidx := insert_index_last v m hs
  have hinv := StateInv_insert v m hs
  refine ⟨getFuture_eq_nil_of_index_last hinv.2.1 hidx, hidx, ?_⟩
  rw [insert_timeline_eq, List.getLast?_concat]

/-- Witness for `C7_insert_erases_future` on `insert({[0], 0}, 1, 5)`. -/
theorem C7_insert_erases_future_witness :
    (StateInv (⟨[(0 : Int)], 0⟩ : UndoableState Int) ∧ (0 : Int) < 5)
      ∧ _getFuture (_insert (⟨[(0 : Int)], 0⟩ : UndoableState Int) 1 5) = [] :=
  ⟨⟨by decide, by decide⟩,
    (C7_insert_erases_future ⟨[(0 : Int)], 0⟩ 1 5 (by decide) (by decide)).1⟩

/-- C8: from a state whose cursor sits on the last of at least two timeline
entries, `undoTo(index - 1)` followed by `redoTo(result.index + 1)` restores
the original current value. -/
theorem C8_undo_redo_roundtrip {T : Type} [Inhabited T] (s : UndoableState T)
    (hlen : 2 ≤ s.timeline.length)
    (hidx : s.index = (s.timeline.length : Int) - 1) :
    _getCurrentTimeSlice
        (_redoTo (_undoTo s (s.index - 1)) ((_undoTo s (s.index - 1)).index + 1))
      = _getCurrentTimeSlice s := by
  have hu : _undoTo s (s.index - 1) = _newState s.timeline (s.index - 1) := by
    unfold _undoTo
    rw [if_pos]
    unfold _canUndoTo
    simp only [Bool.and_eq_true, decide_eq_true_eq, gt_iff_lt]
    omega
  rw [hu]
  have hr : _redoTo (_newState s.timeline (s.index - 1))
        ((_newState s.timeline (s.index - 1)).index + 1)
      = _newState s.timeline s.index := by
    unfold _redoTo
    rw [if_pos]
    · rw [newState_index]
      congr 1
      omega
    · unfold _canRedoTo
      simp only [newState_index, newState_timeline, Bool.and_eq_true,
        decide_eq_true_eq, gt_iff_lt]
      omega
  rw [hr]
  rfl

/-- Witness for `C8_undo_redo_roundtrip` on the state `{[0, 1], 1}`. -/
theorem C8_undo_redo_roundtrip_witness :
    (2 ≤ ([(0 : Int), 1] : List Int).length
        ∧ (⟨[(0 : Int), 1], 1⟩ : UndoableState Int).index
            = (((⟨[(0 : Int), 1], 1⟩ : UndoableState Int)).timeline.length : Int) - 1)
      ∧ _getCurrentTimeSlice
          (_redoTo (_undoTo (⟨[(0 : Int), 1], 1⟩ : UndoableState Int) 0)
            ((_undoTo (⟨[(0 : Int), 1], 1⟩ : UndoableState Int) 0).index + 1))
        = _getCurrentTimeSlice (⟨[(0 : Int), 1], 1⟩ : UndoableState Int) :=
  ⟨⟨by decide, by decide⟩,
    C8_undo_redo_roundtrip ⟨[(0 : Int), 1], 1⟩ (by decide) (by decide)⟩

theorem clearTimeline_idempotent {T : Type} [Inhabited T] (s : UndoableState T) :
    _clearTimeline (_clearTimeline s) = _clearTimeline s := rfl

/-- C9: on an invariant-satisfying state whose current element is `x`,
`clear` yields the single-entry state `{[x], 0}`, and `clear` is
idempotent. -/
theorem C9_clear_spec {T : Type} [Inhabited T] (s : UndoableState T) (x : T)
    (hs : StateInv s) (hx : s.timeline.get? s.index.toNat = some x) :
    _clearTimeline s = _newState [x] 0
      ∧ _clearTimeline (_clearTimeline s) = _clearTimeline s := by
  obtain ⟨h1, h2, h3⟩ := hs
  have hcur : _getCurrentTimeSlice s = x := by
    unfold _getCurrentTimeSlice
    rw [if_pos h2]
    rw [List.getD_eq_getElem?_getD, ← List.get?_eq_getElem?, hx]
    rfl
  constructor
  · unfold _clearTimeline
    rw [hcur]
  · exact clearTimeline_idempotent s

/-- Witness for `C9_clear_spec` on the state `{[5, 7], 1}`. -/
theorem C9_clear_spec_witness :
    (StateInv (⟨[(5 : Int), 7], 1⟩ : UndoableState Int)
        ∧ ([(5 : Int), 7] : List Int).get? 1 = some 7)
      ∧ _clearTimeline (⟨[(5 : Int), 7], 1⟩ : UndoableState Int) = _newState [7] 0 :=
  ⟨⟨by decide, by decide⟩,
    (C9_clear_spec ⟨[(5 : Int), 7], 1⟩ 7 (by decide) (by decide)).1⟩

/-- C10: on an invariant-satisfying state, `redoTo` at any strictly-forward
in-range target agrees with `jumpTo` at that target. -/
theorem C10_redoTo_eq_jumpTo {T : Type} (s : UndoableState T) (t : Int)
    (hs : StateInv s) (h1 : s.index < t) (h2 : t < (s.timeline.length : Int)) :
    _redoTo s t = _jumpTo s t := by
  obtain ⟨g1, g2, g3⟩ := hs
  unfold _redoTo _jumpTo
  rw [if_pos, if_neg (by omega)]
  unfold _canRedoTo
  simp only [Bool.and_eq_true, decide_eq_true_eq, gt_iff_lt]
  omega

/-- Witness for `C10_redoTo_eq_jumpTo` on the state `{[0, 1], 0}` with
target `1`. -/
theorem C10_redoTo_eq_jumpTo_witness :
    (StateInv (⟨[(0 : Int), 1], 0⟩ : UndoableState Int)
        ∧ (⟨[(0 : Int), 1], 0⟩ : UndoableState Int).index < 1
        ∧ (1 : Int) < (([(0 : Int), 1] : List Int).length : Int))
      ∧ _redoTo (⟨[(0 : Int), 1], 0⟩ : UndoableState Int) 1
          = _jumpTo (⟨[(0 : Int), 1], 0⟩ : UndoableState Int) 1 :=
  ⟨⟨by decide, by decide, by decide⟩,
    C10_redoTo_eq_jumpTo ⟨[(0 : Int), 1], 0⟩ 1 (by decide) (by decide) (by decide)⟩
